import Mathlib

/-!
Shallow embedding of the LRU+TTL cache from
`src/rust/vendor/sark-cache/src/lru_ttl.rs`.

Modelling conventions:
* Time is a `Nat` measuring nanoseconds; the cache's clock origin
  (`start_time`) is taken as 0, so an `Instant` and the elapsed offset
  coincide.  Every operation receives the current time `now` explicitly,
  matching the Rust code's calls to `Instant::now()` / `self.now()`.
* `self.now()` casts the elapsed nanoseconds to `u64`; this truncation is
  modelled by `tick now = now % 2^64`.
* The `DashMap<String, CacheEntry>` is modelled as an association list
  `List (String × CacheEntry)`; list order stands for the map's iteration
  order.  `insert` on an existing key replaces the entry in place,
  otherwise appends; `remove` filters the key out; `len` is the list
  length.
* In-place mutation becomes explicit state passing: each operation returns
  its result together with the new cache value.
* `Result<T, CacheError>` becomes `Except CacheError T`; `set` returns the
  error alongside the (possibly swept) state, because the Rust `?` on
  `evict_lru` propagates the error after the sweep already mutated `self`.
-/

namespace SarkCache

/-- `u64::MAX`, the initial value of `oldest_time` in `evict_lru`. -/
def u64MAX : Nat := 2 ^ 64 - 1

/-- `tick now` models `self.now()`: elapsed nanoseconds `as u64`. -/
def tick (now : Nat) : Nat := now % 2 ^ 64

/-- `Duration::from_secs` in nanoseconds. -/
def secsToNanos (s : Nat) : Nat := s * 1000000000

/-- `CacheError` from `error.rs`. -/
inductive CacheError where
  | CapacityExceeded
  | InvalidTTL (msg : String)
  | Internal (msg : String)
  deriving Repr, DecidableEq

/-- Entry stored in the cache with TTL and LRU tracking. -/
structure CacheEntry where
  value : String
  expires_at : Nat
  last_accessed : Nat
  deriving Repr, DecidableEq

/-- `CacheEntry::new`. -/
def CacheEntry.new (value : String) (expires_at accessed_at : Nat) : CacheEntry :=
  { value := value, expires_at := expires_at, last_accessed := accessed_at }

/-- `CacheEntry::is_expired`: `Instant::now() >= self.expires_at`. -/
def CacheEntry.is_expired (e : CacheEntry) (now : Nat) : Bool :=
  decide (now ≥ e.expires_at)

/-- `CacheEntry::touch`: store `now` into `last_accessed`. -/
def CacheEntry.touch (e : CacheEntry) (now : Nat) : CacheEntry :=
  { e with last_accessed := now }

/-- `CacheEntry::last_accessed_at`. -/
def CacheEntry.last_accessed_at (e : CacheEntry) : Nat :=
  e.last_accessed

/-- The `DashMap<String, CacheEntry>`, as an association list in iteration
order. -/
abbrev Store := List (String × CacheEntry)

/-- `map.get(key)` (value part only). -/
def mapGet (m : Store) (k : String) : Option CacheEntry :=
  (m.find? (fun p => p.1 == k)).map (fun p => p.2)

/-- `map.remove(key)`: drop the entry for `k`. -/
def mapRemove (m : Store) (k : String) : Store :=
  m.filter (fun p => !(p.1 == k))

/-- `map.insert(key, entry)`: replace in place if present, else append. -/
def mapInsert (m : Store) (k : String) (e : CacheEntry) : Store :=
  if (mapGet m k).isSome then
    m.map (fun p => if p.1 == k then (k, e) else p)
  else
    m ++ [(k, e)]

/-- `LRUTTLCache` (the `start_time` field is the model's time origin 0 and
is not carried). -/
structure LRUTTLCache where
  map : Store
  max_size : Nat
  default_ttl : Nat
  deriving Repr, DecidableEq

namespace LRUTTLCache

/-- `LRUTTLCache::new(max_size, ttl_secs)`. -/
def new (max_size ttl_secs : Nat) : LRUTTLCache :=
  { map := [], max_size := max_size, default_ttl := secsToNanos ttl_secs }

/-- `LRUTTLCache::get`: returns the value (or nothing) and the new state. -/
def get (c : LRUTTLCache) (key : String) (now : Nat) :
    Option String × LRUTTLCache :=
  match mapGet c.map key with
  | none => (none, c)
  | some entry =>
      if entry.is_expired now then
        (none, { c with map := mapRemove c.map key })
      else
        (some entry.value,
         { c with map := mapInsert c.map key (entry.touch (tick now)) })

/-- `LRUTTLCache::delete`. -/
def delete (c : LRUTTLCache) (key : String) : Bool × LRUTTLCache :=
  ((mapGet c.map key).isSome, { c with map := mapRemove c.map key })

/-- `LRUTTLCache::clear`. -/
def clear (c : LRUTTLCache) : LRUTTLCache :=
  { c with map := [] }

/-- `LRUTTLCache::size`. -/
def size (c : LRUTTLCache) : Nat :=
  c.map.length

/-- One step of `evict_lru`'s scan: keep the entry with the strictly
smallest `last_accessed` seen so far. -/
def evictStep (acc : Option String × Nat) (p : String × CacheEntry) :
    Option String × Nat :=
  if p.2.last_accessed_at < acc.2 then (some p.1, p.2.last_accessed_at) else acc

/-- `LRUTTLCache::evict_lru`: scan for the least recently used entry and
remove it; `CapacityExceeded` if none was found. -/
def evict_lru (c : LRUTTLCache) : Except CacheError LRUTTLCache :=
  match (c.map.foldl evictStep (none, u64MAX)).1 with
  | some key => Except.ok { c with map := mapRemove c.map key }
  | none => Except.error CacheError.CapacityExceeded

/-- One step of `cleanup_expired`'s removal loop: remove the key, counting
it if it was present. -/
def sweepStep (acc : Nat × Store) (k : String) : Nat × Store :=
  if (mapGet acc.2 k).isSome then (acc.1 + 1, mapRemove acc.2 k) else acc

/-- `LRUTTLCache::cleanup_expired`: collect expired keys, remove each,
return the count removed and the new state. -/
def cleanup_expired (c : LRUTTLCache) (now : Nat) : Nat × LRUTTLCache :=
  let expired_keys : List String :=
    (c.map.filter (fun p => p.2.is_expired now)).map (fun p => p.1)
  let r := expired_keys.foldl sweepStep (0, c.map)
  (r.1, { c with map := r.2 })

/-- `LRUTTLCache::set`: the eviction phase (capacity check, sweep, LRU
eviction), then the unconditional insert.  The state returned with an
error is the state after the sweep, exactly as the Rust `?` leaves it. -/
def set (c : LRUTTLCache) (key value : String) (ttl : Option Nat)
    (now : Nat) : Except CacheError Unit × LRUTTLCache :=
  let ttl_duration := (ttl.map secsToNanos).getD c.default_ttl
  let expires_at := now + ttl_duration
  let n := tick now
  let phase1 : Except CacheError Unit × LRUTTLCache :=
    if c.map.length ≥ c.max_size ∧ mapGet c.map key = none then
      let swept := c.cleanup_expired now
      if swept.1 = 0 ∧ swept.2.map.length ≥ swept.2.max_size then
        match swept.2.evict_lru with
        | Except.ok c2 => (Except.ok (), c2)
        | Except.error e => (Except.error e, swept.2)
      else
        (Except.ok (), swept.2)
    else
      (Except.ok (), c)
  match phase1 with
  | (Except.ok _, c2) =>
      (Except.ok (),
       { c2 with map := mapInsert c2.map key (CacheEntry.new value expires_at n) })
  | (Except.error e, c2) => (Except.error e, c2)

end LRUTTLCache

end SarkCache

namespace SarkCache

/-! ### Association-list map lemmas -/

theorem mapGet_cons (p : String × CacheEntry) (m : Store) (k : String) :
    mapGet (p :: m) k = if p.1 == k then some p.2 else mapGet m k := by
  rcases h : p.1 == k
  · simp [mapGet, List.find?_cons, h]
  · simp [mapGet, List.find?_cons, h]

theorem mapRemove_cons (p : String × CacheEntry) (m : Store) (k : String) :
    mapRemove (p :: m) k
      = if p.1 == k then mapRemove m k else p :: mapRemove m k := by
  rcases h : p.1 == k <;> simp [mapRemove, List.filter_cons, h]

theorem mapGet_eq_none_iff (m : Store) (k : String) :
    mapGet m k = none ↔ ∀ p ∈ m, p.1 ≠ k := by
  simp [mapGet, List.find?_eq_none]

theorem mapGet_isSome_of_mem (m : Store) (q : String × CacheEntry)
    (hq : q ∈ m) : (mapGet m q.1).isSome := by
  rcases hx : m.find? (fun p => p.1 == q.1) with _ | p
  · exfalso
    rw [List.find?_eq_none] at hx
    exact hx q hq (by simp)
  · unfold mapGet
    rw [hx]
    rfl

theorem mapGet_remove_self (m : Store) (k : String) :
    mapGet (mapRemove m k) k = none := by
  rw [mapGet_eq_none_iff]
  intro p hp
  have h := (List.mem_filter.mp hp).2
  simpa using h

theorem mapGet_remove_ne (m : Store) (k k2 : String) (h : k2 ≠ k) :
    mapGet (mapRemove m k) k2 = mapGet m k2 := by
  induction m with
  | nil => rfl
  | cons p m ih =>
      rw [mapRemove_cons]
      by_cases hp : p.1 = k
      · have hk2 : (p.1 == k2) = false := by
          simp [hp]
          exact fun e => h e.symm
        rw [if_pos (by simp [hp]), ih, mapGet_cons, hk2]
        simp
      · rw [if_neg (by simp [hp]), mapGet_cons, mapGet_cons, ih]

theorem mapGet_append (m1 m2 : Store) (k : String) :
    mapGet (m1 ++ m2) k
      = match mapGet m1 k with
        | some e => some e
        | none => mapGet m2 k := by
  induction m1 with
  | nil => simp [mapGet]
  | cons p m1 ih =>
      rw [List.cons_append, mapGet_cons, mapGet_cons]
      rcases h : p.1 == k <;> simp [ih]

theorem mapGet_replace_self (m : Store) (k : String) (e : CacheEntry) :
    mapGet (m.map (fun p => if p.1 == k then (k, e) else p)) k
      = if (mapGet m k).isSome then some e else none := by
  induction m with
  | nil => rfl
  | cons p m ih =>
      rcases h : p.1 == k
      · rw [List.map_cons, if_neg (by simp [h]), mapGet_cons, h, mapGet_cons, h]
        simpa using ih
      · rw [List.map_cons, if_pos (by simp [h]), mapGet_cons, mapGet_cons, h]
        simp

theorem mapGet_replace_ne (m : Store) (k k2 : String) (e : CacheEntry)
    (h : k2 ≠ k) :
    mapGet (m.map (fun p => if p.1 == k then (k, e) else p)) k2
      = mapGet m k2 := by
  induction m with
  | nil => rfl
  | cons p m ih =>
      rw [List.map_cons]
      rcases hp : p.1 == k
      · rw [if_neg (by simp [hp]), mapGet_cons, mapGet_cons, ih]
      · have hpk : p.1 = k := by simpa using hp
        have hk2 : (k == k2) = false := by
          simp only [beq_eq_false_iff_ne, ne_eq]
          exact fun e2 => h e2.symm
        have hpk2 : (p.1 == k2) = false := by rw [hpk]; exact hk2
        rw [if_pos (by simp [hp]), mapGet_cons, mapGet_cons, ih]
        simp [hk2, hpk2]

theorem mapGet_insert_self (m : Store) (k : String) (e : CacheEntry) :
    mapGet (mapInsert m k e) k = some e := by
  unfold mapInsert
  by_cases h : (mapGet m k).isSome
  · rw [if_pos h, mapGet_replace_self, if_pos h]
  · rw [if_neg h, mapGet_append]
    have hn : mapGet m k = none := by
      rcases hx : mapGet m k with _ | e2
      · rfl
      · rw [hx] at h
        simp at h
    rw [hn]
    simp [mapGet_cons]

theorem mapGet_insert_ne (m : Store) (k k2 : String) (e : CacheEntry)
    (h : k2 ≠ k) :
    mapGet (mapInsert m k e) k2 = mapGet m k2 := by
  unfold mapInsert
  by_cases hs : (mapGet m k).isSome
  · rw [if_pos hs, mapGet_replace_ne m k k2 e h]
  · rw [if_neg hs, mapGet_append]
    have hk : (k == k2) = false := by
      simp only [beq_eq_false_iff_ne, ne_eq]
      exact fun e2 => h e2.symm
    rcases hx : mapGet m k2 with _ | e2 <;> simp [mapGet_cons, hk, mapGet]

theorem keys_insert_present (m : Store) (k : String) (e : CacheEntry)
    (h : (mapGet m k).isSome) :
    (mapInsert m k e).map Prod.fst = m.map Prod.fst := by
  unfold mapInsert
  rw [if_pos h, List.map_map]
  apply List.map_congr_left
  intro p _
  rcases hp : p.1 == k
  · simp [Function.comp, hp]
  · have hpk : p.1 = k := by simpa using hp
    simp [Function.comp, hp, hpk]

theorem nodup_keys_inj (m : Store) (hN : (m.map Prod.fst).Nodup)
    (p q : String × CacheEntry) (hp : p ∈ m) (hq : q ∈ m)
    (h : p.1 = q.1) : p = q :=
  List.inj_on_of_nodup_map hN hp hq h

theorem mapGet_of_mem_nodup (m : Store) (hN : (m.map Prod.fst).Nodup)
    (p : String × CacheEntry) (hp : p ∈ m) :
    mapGet m p.1 = some p.2 := by
  have hs := mapGet_isSome_of_mem m p hp
  rcases hx : (m.find? (fun q => q.1 == p.1)) with _ | q
  · rw [mapGet] at hs
    rw [hx] at hs
    simp at hs
  · have hq1 : q.1 = p.1 := by simpa using List.find?_some hx
    have hqm : q ∈ m := List.mem_of_find?_eq_some hx
    have hqp : q = p := nodup_keys_inj m hN q p hqm hp hq1
    unfold mapGet
    rw [hx, hqp]
    rfl

theorem mapRemove_eq_self (m : Store) (k : String)
    (h : ∀ p ∈ m, p.1 ≠ k) : mapRemove m k = m := by
  unfold mapRemove
  rw [List.filter_eq_self]
  intro p hp
  simpa using h p hp

theorem mapRemove_length (m : Store) (k : String)
    (hN : (m.map Prod.fst).Nodup) (q : String × CacheEntry)
    (hq : q ∈ m) (hk : q.1 = k) :
    (mapRemove m k).length + 1 = m.length := by
  induction m with
  | nil => cases hq
  | cons p m ih =>
      rw [List.map_cons, List.nodup_cons] at hN
      rw [mapRemove_cons]
      rcases List.mem_cons.mp hq with hqp | hqm
      · subst hqp
        rw [if_pos (by simp [hk])]
        rw [mapRemove_eq_self m k]
        · simp
        · intro r hr he
          apply hN.1
          have hr1 : r.1 = q.1 := by rw [he, ← hk]
          rw [← hr1]
          exact List.mem_map_of_mem Prod.fst hr
      · have hpk : p.1 ≠ k := by
          intro he
          apply hN.1
          rw [he, ← hk]
          exact List.mem_map_of_mem Prod.fst hqm
        rw [if_neg (by simp [hpk])]
        simp only [List.length_cons]
        have hlen := ih hN.2 hqm
        omega

end SarkCache

/-! ### Sweep (`cleanup_expired`) lemmas -/

namespace SarkCache

namespace LRUTTLCache

theorem sweep_count_mono (ks : List String) (acc : Nat × Store) :
    acc.1 ≤ (ks.foldl sweepStep acc).1 := by
  induction ks generalizing acc with
  | nil => exact Nat.le_refl _
  | cons k ks ih =>
      rw [List.foldl_cons]
      refine le_trans ?_ (ih (sweepStep acc k))
      unfold sweepStep
      by_cases hp : (mapGet acc.2 k).isSome
      · rw [if_pos hp]
        exact Nat.le_succ _
      · rw [if_neg hp]

theorem sweep_count_eq_imp (ks : List String) (acc : Nat × Store)
    (h : (ks.foldl sweepStep acc).1 = acc.1) :
    ks.foldl sweepStep acc = acc := by
  induction ks generalizing acc with
  | nil => rfl
  | cons k ks ih =>
      rw [List.foldl_cons] at h ⊢
      by_cases hp : (mapGet acc.2 k).isSome
      · exfalso
        have hm := sweep_count_mono ks (sweepStep acc k)
        have hs : sweepStep acc k = (acc.1 + 1, mapRemove acc.2 k) := by
          unfold sweepStep
          rw [if_pos hp]
        rw [hs] at h hm
        simp at hm
        omega
      · have hs : sweepStep acc k = acc := by
          unfold sweepStep
          rw [if_neg hp]
        rw [hs] at h ⊢
        exact ih acc h

theorem sweep_map_filter (ks : List String) (n : Nat) (m : Store) :
    (ks.foldl sweepStep (n, m)).2
      = m.filter (fun p => !(decide (p.1 ∈ ks))) := by
  induction ks generalizing n m with
  | nil => simp
  | cons k ks ih =>
      rw [List.foldl_cons]
      by_cases hp : (mapGet m k).isSome
      · have hs : sweepStep (n, m) k = (n + 1, mapRemove m k) := by
          unfold sweepStep
          rw [if_pos hp]
        rw [hs, ih]
        unfold mapRemove
        rw [List.filter_filter]
        have hfun : (fun p : String × CacheEntry =>
              !(decide (p.1 ∈ ks)) && !(p.1 == k))
            = (fun p : String × CacheEntry => !(decide (p.1 ∈ k :: ks))) := by
          funext p
          by_cases hk : p.1 = k <;> by_cases hks : p.1 ∈ ks <;>
            simp [hk, hks]
        rw [hfun]
      · have hs : sweepStep (n, m) k = (n, m) := by
          unfold sweepStep
          rw [if_neg hp]
        rw [hs, ih]
        apply List.filter_congr
        intro p hpm
        have hne : p.1 ≠ k := by
          intro he
          exact hp (he ▸ mapGet_isSome_of_mem m p hpm)
        simp [hne]

theorem sweep_count_full (ks : List String) (n : Nat) (m : Store)
    (hN : ks.Nodup) (hin : ∀ k ∈ ks, (mapGet m k).isSome) :
    (ks.foldl sweepStep (n, m)).1 = n + ks.length := by
  induction ks generalizing n m with
  | nil => simp
  | cons k ks ih =>
      rw [List.foldl_cons]
      have hp := hin k (by simp)
      have hs : sweepStep (n, m) k = (n + 1, mapRemove m k) := by
        unfold sweepStep
        rw [if_pos hp]
      rw [hs]
      rw [List.nodup_cons] at hN
      have hin2 : ∀ k2 ∈ ks, (mapGet (mapRemove m k) k2).isSome := by
        intro k2 hk2
        rw [mapGet_remove_ne]
        · exact hin k2 (by simp [hk2])
        · intro he
          exact hN.1 (he ▸ hk2)
      have := ih (n + 1) (mapRemove m k) hN.2 hin2
      simp only [List.length_cons]
      omega

theorem cleanup_expired_eq (c : LRUTTLCache) (now : Nat) :
    c.cleanup_expired now
      = ((((c.map.filter (fun p => p.2.is_expired now)).map
            (fun p => p.1)).foldl sweepStep (0, c.map)).1,
         { c with map := (((c.map.filter (fun p => p.2.is_expired now)).map
            (fun p => p.1)).foldl sweepStep (0, c.map)).2 }) := rfl

theorem cleanup_zero (c : LRUTTLCache) (now : Nat)
    (h : (c.cleanup_expired now).1 = 0) :
    (c.cleanup_expired now).2 = c ∧
      ∀ p ∈ c.map, p.2.is_expired now = false := by
  rcases hE : (c.map.filter (fun p => p.2.is_expired now)).map
      (fun p => p.1) with _ | ⟨k, ks⟩
  · have hfil : c.map.filter (fun p => p.2.is_expired now) = [] :=
      List.map_eq_nil_iff.mp hE
    constructor
    · rw [cleanup_expired_eq, hE]
      rfl
    · intro p hp
      rcases hb : p.2.is_expired now
      · rfl
      · exfalso
        have : p ∈ c.map.filter (fun p => p.2.is_expired now) :=
          List.mem_filter.mpr ⟨hp, hb⟩
        rw [hfil] at this
        cases this
  · exfalso
    have hkmem : k ∈ (c.map.filter (fun p => p.2.is_expired now)).map
        (fun p => p.1) := by
      rw [hE]
      simp
    rcases List.mem_map.mp hkmem with ⟨q, hq, hq1⟩
    have hqm : q ∈ c.map := (List.mem_filter.mp hq).1
    have hsome : (mapGet c.map k).isSome := hq1 ▸ mapGet_isSome_of_mem c.map q hqm
    have hs : sweepStep (0, c.map) k = (1, mapRemove c.map k) := by
      unfold sweepStep
      rw [if_pos hsome]
    have hm := sweep_count_mono ks (sweepStep (0, c.map) k)
    rw [hs] at hm
    simp at hm
    rw [cleanup_expired_eq, hE] at h
    simp only [List.foldl_cons] at h
    rw [hs] at h
    omega

end LRUTTLCache

end SarkCache

namespace SarkCache

namespace LRUTTLCache

theorem cleanup_expired_spec (c : LRUTTLCache) (now : Nat)
    (hN : (c.map.map Prod.fst).Nodup) :
    (c.cleanup_expired now).1
        = (c.map.filter (fun p => p.2.is_expired now)).length ∧
    (c.cleanup_expired now).2.map
        = c.map.filter (fun p => !(p.2.is_expired now)) ∧
    (c.cleanup_expired now).2.max_size = c.max_size ∧
    (c.cleanup_expired now).2.default_ttl = c.default_ttl := by
  have hsub : List.Sublist (c.map.filter (fun p => p.2.is_expired now)) c.map :=
    List.filter_sublist c.map
  have hEnodup : ((c.map.filter (fun p => p.2.is_expired now)).map
      (fun p => p.1)).Nodup := by
    have hsub2 : List.Sublist ((c.map.filter (fun p => p.2.is_expired now)).map
        (fun p : String × CacheEntry => p.1))
        (c.map.map (fun p : String × CacheEntry => p.1)) :=
      List.Sublist.map _ hsub
    exact List.Nodup.sublist hsub2 hN
  have hEin : ∀ k ∈ (c.map.filter (fun p => p.2.is_expired now)).map
      (fun p => p.1), (mapGet c.map k).isSome := by
    intro k hk
    rcases List.mem_map.mp hk with ⟨q, hq, hq1⟩
    exact hq1 ▸ mapGet_isSome_of_mem c.map q ((List.mem_filter.mp hq).1)
  refine ⟨?_, ?_, rfl, rfl⟩
  · rw [cleanup_expired_eq]
    have := sweep_count_full
      ((c.map.filter (fun p => p.2.is_expired now)).map (fun p => p.1))
      0 c.map hEnodup hEin
    rw [this]
    simp
  · rw [cleanup_expired_eq]
    have := sweep_map_filter
      ((c.map.filter (fun p => p.2.is_expired now)).map (fun p => p.1))
      0 c.map
    simp only [this]
    apply List.filter_congr
    intro p hp
    rcases hb : p.2.is_expired now
    · simp only [Bool.not_false, Bool.not_eq_true']
      simp only [decide_eq_false_iff_not]
      intro hmem
      rcases List.mem_map.mp hmem with ⟨q, hq, hq1⟩
      have hqexp := (List.mem_filter.mp hq).2
      have hq2 : q = p := nodup_keys_inj c.map hN q p
        ((List.mem_filter.mp hq).1) hp hq1
      rw [hq2] at hqexp
      rw [hb] at hqexp
      cases hqexp
    · have hmem : p.1 ∈ (c.map.filter (fun p => p.2.is_expired now)).map
          (fun p => p.1) :=
        List.mem_map_of_mem _ (List.mem_filter.mpr ⟨hp, hb⟩)
      simp [hmem]

end LRUTTLCache

/-! ### Minimum-recency characterisation for `evict_lru` -/

/-- The minimum `last_accessed` counter over a store (`none` when empty). -/
def minC : Store → Option Nat
  | [] => none
  | p :: m =>
      match minC m with
      | none => some p.2.last_accessed
      | some mu => some (min p.2.last_accessed mu)

theorem minC_eq_none (m : Store) : minC m = none ↔ m = [] := by
  cases m with
  | nil => simp [minC]
  | cons p m =>
      simp only [minC]
      cases h : minC m <;> simp

theorem minC_mem (m : Store) (mu : Nat) (h : minC m = some mu) :
    ∃ p ∈ m, p.2.last_accessed = mu := by
  induction m generalizing mu with
  | nil => cases h
  | cons p m ih =>
      rcases hm : minC m with _ | mu2
      · rw [minC, hm] at h
        exact ⟨p, by simp, by cases h; rfl⟩
      · rw [minC, hm] at h
        have hmin : mu = min p.2.last_accessed mu2 := by cases h; rfl
        by_cases hc : p.2.last_accessed ≤ mu2
        · refine ⟨p, by simp, ?_⟩
          omega
        · rcases ih mu2 hm with ⟨q, hq, hq2⟩
          refine ⟨q, by simp [hq], ?_⟩
          omega

theorem minC_le (m : Store) (mu : Nat) (h : minC m = some mu) :
    ∀ p ∈ m, mu ≤ p.2.last_accessed := by
  induction m generalizing mu with
  | nil => intro p hp; cases hp
  | cons p m ih =>
      intro q hq
      rcases hm : minC m with _ | mu2
      · rw [minC, hm] at h
        have : m = [] := (minC_eq_none m).mp hm
        subst this
        rcases List.mem_cons.mp hq with hqp | hqm
        · subst hqp
          cases h
          exact Nat.le_refl _
        · cases hqm
      · rw [minC, hm] at h
        have hmin : mu = min p.2.last_accessed mu2 := by cases h; rfl
        rcases List.mem_cons.mp hq with hqp | hqm
        · subst hqp
          omega
        · have := ih mu2 hm q hqm
          omega

end SarkCache

namespace SarkCache

theorem evict_foldl_eq (m : Store) (a : Option String × Nat) :
    m.foldl LRUTTLCache.evictStep a =
      match minC m with
      | none => a
      | some mu =>
          if mu < a.2 then
            ((m.find? (fun p => p.2.last_accessed == mu)).map (fun p => p.1),
             mu)
          else a := by
  induction m generalizing a with
  | nil => rfl
  | cons p m ih =>
      rw [List.foldl_cons, ih (LRUTTLCache.evictStep a p)]
      rcases hm : minC m with _ | mu
      · have hm0 : m = [] := (minC_eq_none m).mp hm
        subst hm0
        by_cases hc : p.2.last_accessed < a.2
        · simp [LRUTTLCache.evictStep, CacheEntry.last_accessed_at, minC, hc]
        · simp [LRUTTLCache.evictStep, CacheEntry.last_accessed_at, minC, hc]
      · simp only [minC, hm]
        by_cases hc : p.2.last_accessed < a.2
        · have he : LRUTTLCache.evictStep a p = (some p.1, p.2.last_accessed) := by
            simp [LRUTTLCache.evictStep, CacheEntry.last_accessed_at, hc]
          rw [he]
          by_cases hmu : mu < p.2.last_accessed
          · have hmin : min p.2.last_accessed mu = mu := by omega
            rw [hmin]
            have hfind : (p :: m).find? (fun q => q.2.last_accessed == mu)
                = m.find? (fun q => q.2.last_accessed == mu) :=
              List.find?_cons_of_neg m (by simp only [beq_iff_eq]; omega)
            rw [hfind]
            have hlt : mu < a.2 := lt_trans hmu hc
            simp [hmu, hlt]
          · have hmin : min p.2.last_accessed mu = p.2.last_accessed := by omega
            rw [hmin]
            have hfind : (p :: m).find? (fun q =>
                  q.2.last_accessed == p.2.last_accessed) = some p :=
              List.find?_cons_of_pos m (by simp)
            rw [hfind]
            simp [hmu, hc]
        · have he : LRUTTLCache.evictStep a p = a := by
            simp [LRUTTLCache.evictStep, CacheEntry.last_accessed_at, hc]
          rw [he]
          by_cases hmu2 : mu < a.2
          · have hpc : a.2 ≤ p.2.last_accessed := by omega
            have hmin : min p.2.last_accessed mu = mu := by omega
            rw [hmin]
            have hfind : (p :: m).find? (fun q => q.2.last_accessed == mu)
                = m.find? (fun q => q.2.last_accessed == mu) :=
              List.find?_cons_of_neg m (by simp only [beq_iff_eq]; omega)
            rw [hfind]
          · have hmin : ¬ (min p.2.last_accessed mu < a.2) := by omega
            simp [hmu2, hmin]

end SarkCache

namespace SarkCache

theorem evict_lru_spec (c : LRUTTLCache)
    (hW : ∀ p ∈ c.map, p.2.last_accessed < u64MAX)
    (hne : c.map ≠ []) :
    ∃ mu q, minC c.map = some mu ∧
      c.map.find? (fun p => p.2.last_accessed == mu) = some q ∧
      q.2.last_accessed = mu ∧ q ∈ c.map ∧
      c.evict_lru = Except.ok { c with map := mapRemove c.map q.1 } := by
  rcases hmc : minC c.map with _ | mu
  · exact absurd ((minC_eq_none c.map).mp hmc) hne
  rcases minC_mem c.map mu hmc with ⟨p0, hp0, hp0eq⟩
  have hmuW : mu < u64MAX := hp0eq ▸ hW p0 hp0
  rcases hfind : c.map.find? (fun p => p.2.last_accessed == mu) with _ | q
  · exfalso
    rw [List.find?_eq_none] at hfind
    exact hfind p0 hp0 (by simp [hp0eq])
  have hq2 : q.2.last_accessed = mu := by simpa using List.find?_some hfind
  have hqm : q ∈ c.map := List.mem_of_find?_eq_some hfind
  refine ⟨mu, q, rfl, hfind, hq2, hqm, ?_⟩
  unfold LRUTTLCache.evict_lru
  rw [evict_foldl_eq]
  simp only [hmc]
  have hcond : mu < ((none : Option String), u64MAX).2 := hmuW
  rw [if_pos hcond, hfind]
  rfl

theorem evict_lru_error_iff (c : LRUTTLCache)
    (hW : ∀ p ∈ c.map, p.2.last_accessed < u64MAX) :
    (∃ e, c.evict_lru = Except.error e) ↔ c.map = [] := by
  constructor
  · intro he
    by_contra hne
    rcases evict_lru_spec c hW hne with ⟨mu, q, _, _, _, _, hok⟩
    rcases he with ⟨e, he⟩
    rw [hok] at he
    cases he
  · intro hnil
    refine ⟨CacheError.CapacityExceeded, ?_⟩
    unfold LRUTTLCache.evict_lru
    rw [hnil]
    rfl

end SarkCache

namespace SarkCache

namespace LRUTTLCache

theorem set_skip_eviction (c : LRUTTLCache) (key value : String)
    (ttl : Option Nat) (now : Nat)
    (h : ¬ (c.map.length ≥ c.max_size ∧ mapGet c.map key = none)) :
    c.set key value ttl now
      = (Except.ok (),
         { c with
             map := mapInsert c.map key
               (CacheEntry.new value
                 (now + (ttl.map secsToNanos).getD c.default_ttl)
                 (tick now)) }) := by
  simp only [LRUTTLCache.set]
  rw [if_neg h]

theorem set_at_capacity (c : LRUTTLCache) (key value : String)
    (ttl : Option Nat) (now : Nat)
    (h1 : c.map.length ≥ c.max_size) (h2 : mapGet c.map key = none)
    (hswept : (c.cleanup_expired now).1 = 0) :
    c.set key value ttl now
      = match c.evict_lru with
        | Except.ok c2 =>
            (Except.ok (),
             { c2 with
                 map := mapInsert c2.map key
                   (CacheEntry.new value
                     (now + (ttl.map secsToNanos).getD c.default_ttl)
                     (tick now)) })
        | Except.error e => (Except.error e, c) := by
  have hpair : c.cleanup_expired now = (0, c) := by
    have hc2 := (cleanup_zero c now hswept).1
    have hsplit : c.cleanup_expired now
        = ((c.cleanup_expired now).1, (c.cleanup_expired now).2) := rfl
    rw [hsplit, hswept, hc2]
  simp only [LRUTTLCache.set]
  rw [if_pos ⟨h1, h2⟩, hpair]
  rw [if_pos ⟨rfl, h1⟩]
  rcases hev : c.evict_lru with e | c2 <;> rfl

theorem set_ok_map_shape (c : LRUTTLCache) (key value : String)
    (ttl : Option Nat) (now : Nat)
    (hok : (c.set key value ttl now).1 = Except.ok ()) :
    ∃ m0, (c.set key value ttl now).2.map
      = mapInsert m0 key (CacheEntry.new value
          (now + (ttl.map secsToNanos).getD c.default_ttl) (tick now)) := by
  by_cases h1 : c.map.length ≥ c.max_size ∧ mapGet c.map key = none
  · simp only [LRUTTLCache.set] at hok ⊢
    rw [if_pos h1] at hok ⊢
    by_cases h2 : (c.cleanup_expired now).1 = 0 ∧
        (c.cleanup_expired now).2.map.length ≥ (c.cleanup_expired now).2.max_size
    · rw [if_pos h2] at hok ⊢
      rcases hev : (c.cleanup_expired now).2.evict_lru with e | c2
      · rw [hev] at hok
        exact Except.noConfusion hok
      · exact ⟨c2.map, rfl⟩
    · rw [if_neg h2] at hok ⊢
      exact ⟨(c.cleanup_expired now).2.map, rfl⟩
  · simp only [LRUTTLCache.set] at hok ⊢
    rw [if_neg h1] at hok ⊢
    exact ⟨c.map, rfl⟩

end LRUTTLCache

end SarkCache

namespace SarkCache

open LRUTTLCache

/-! ### Claim theorems -/

/-- C1 (amended): for every key, `get(key)` returns the stored value if the
key is present in the store and the current instant is strictly before its
expiration instant; otherwise it returns nothing.  In particular, at the
exact expiration instant the entry already counts as expired (the check is
`now >= expires_at`) and nothing is returned. -/
theorem C1_get_contract (c : LRUTTLCache) (key : String) (now : Nat) :
    (c.get key now).1 =
      match mapGet c.map key with
      | none => none
      | some e => if now < e.expires_at then some e.value else none := by
  unfold LRUTTLCache.get
  rcases h : mapGet c.map key with _ | e
  · rfl
  · rcases hb : e.is_expired now
    · have hlt : now < e.expires_at := by
        simp [CacheEntry.is_expired] at hb
        omega
      simp [hb, hlt]
    · have hge : e.expires_at ≤ now := by
        simp [CacheEntry.is_expired] at hb
        omega
      have hnlt : ¬ now < e.expires_at := by omega
      simp [hb, hnlt]

/-- A one-entry cache whose entry expires at instant 5 (counterexample
input for the original C1 wording). -/
def edgeCache : LRUTTLCache :=
  { map := [("k", { value := "v", expires_at := 5, last_accessed := 0 })],
    max_size := 10, default_ttl := secsToNanos 300 }

/-- C1 counterexample: the key is present with expiration instant 5, yet
`get` at exactly instant 5 returns nothing — the original claim's "at the
exact expiration instant the value is still returned" is false. -/
theorem C1_counterexample :
    mapGet edgeCache.map "k"
        = some { value := "v", expires_at := 5, last_accessed := 0 } ∧
    (edgeCache.get "k" 5).1 = none := by
  exact ⟨rfl, rfl⟩

/-- Scenario cache states for C4: size-3 cache, insert k1,k2,k3 at ticks
0,1,2, refresh k2 with a get at tick 3, insert k4 at tick 4. -/
def lruScenario1 : LRUTTLCache := ((LRUTTLCache.new 3 300).set "k1" "v1" none 0).2

def lruScenario2 : LRUTTLCache := (lruScenario1.set "k2" "v2" none 1).2

def lruScenario3 : LRUTTLCache := (lruScenario2.set "k3" "v3" none 2).2

def lruScenario4 : LRUTTLCache := (lruScenario3.get "k2" 3).2

def lruScenario5 : LRUTTLCache := (lruScenario4.set "k4" "v4" none 4).2

/-- C4: after inserting k1,k2,k3 at increasing ticks, refreshing k2 with a
get, and inserting k4, the entry k1 is evicted and k2, k3, k4 each return
their stored values. -/
theorem C4_lru_eviction_scenario :
    mapGet lruScenario5.map "k1" = none ∧
    (lruScenario5.get "k2" 5).1 = some "v2" ∧
    ((lruScenario5.get "k2" 5).2.get "k3" 6).1 = some "v3" ∧
    (((lruScenario5.get "k2" 5).2.get "k3" 6).2.get "k4" 7).1 = some "v4" := by
  exact ⟨rfl, rfl, rfl, rfl⟩

/-- C6: a `get` that finds an expired entry removes it from the store and
returns nothing; the key is physically absent afterwards, so a subsequent
`get` is a plain miss that leaves the state unchanged. -/
theorem C6_get_expired_removes (c : LRUTTLCache) (key : String) (now : Nat)
    (e : CacheEntry) (hsome : mapGet c.map key = some e)
    (hexp : e.is_expired now = true) :
    (c.get key now).1 = none ∧
    (c.get key now).2.map = mapRemove c.map key ∧
    mapGet (c.get key now).2.map key = none ∧
    ∀ now2, (c.get key now).2.get key now2 = (none, (c.get key now).2) := by
  have hget : c.get key now
      = (none, { c with map := mapRemove c.map key }) := by
    simp [LRUTTLCache.get, hsome, hexp]
  rw [hget]
  refine ⟨rfl, rfl, mapGet_remove_self c.map key, ?_⟩
  intro now2
  simp [LRUTTLCache.get, mapGet_remove_self]

/-- C7: when the key is already present, `set` runs no sweep and no
eviction, succeeds, and only replaces that key's entry — the entry of
every other key is unchanged, even at or above `max_size`. -/
theorem C7_set_overwrite_frame (c : LRUTTLCache) (key value : String)
    (ttl : Option Nat) (now : Nat) (e : CacheEntry)
    (hsome : mapGet c.map key = some e) :
    (c.set key value ttl now).1 = Except.ok () ∧
    (c.set key value ttl now).2.map
      = mapInsert c.map key (CacheEntry.new value
          (now + (ttl.map secsToNanos).getD c.default_ttl) (tick now)) ∧
    (∀ k2, k2 ≠ key →
      mapGet (c.set key value ttl now).2.map k2 = mapGet c.map k2) ∧
    (c.set key value ttl now).2.max_size = c.max_size ∧
    (c.set key value ttl now).2.default_ttl = c.default_ttl := by
  have hcond : ¬ (c.map.length ≥ c.max_size ∧ mapGet c.map key = none) := by
    intro h
    exact Option.noConfusion (hsome.symm.trans h.2)
  have hset := set_skip_eviction c key value ttl now hcond
  rw [hset]
  refine ⟨rfl, rfl, ?_, rfl, rfl⟩
  intro k2 hk2
  exact mapGet_insert_ne c.map key k2 _ hk2

/-- C8: `delete` reports exactly whether the key was physically present,
removes it, leaves all other keys unchanged, and a repeated delete of the
same key returns false. -/
theorem C8_delete_semantics (c : LRUTTLCache) (key : String) :
    (c.delete key).1 = (mapGet c.map key).isSome ∧
    mapGet (c.delete key).2.map key = none ∧
    ((c.delete key).2.delete key).1 = false ∧
    ∀ k2, k2 ≠ key → mapGet (c.delete key).2.map k2 = mapGet c.map k2 := by
  refine ⟨rfl, mapGet_remove_self c.map key, ?_, ?_⟩
  · show (mapGet (mapRemove c.map key) key).isSome = false
    rw [mapGet_remove_self]
    rfl
  · intro k2 hk2
    exact mapGet_remove_ne c.map key k2 hk2

/-- C10: a `get` that returns a value only rewrites the entry's
`last_accessed` counter: the entry keeps its value and expiration, every
other key's entry is untouched, and the key set of the store is
unchanged. -/
theorem C10_get_hit_frame (c : LRUTTLCache) (key : String) (now : Nat)
    (e : CacheEntry) (hsome : mapGet c.map key = some e)
    (hlive : e.is_expired now = false) :
    (c.get key now).1 = some e.value ∧
    mapGet (c.get key now).2.map key
      = some { e with last_accessed := tick now } ∧
    (∀ k2, k2 ≠ key →
      mapGet (c.get key now).2.map k2 = mapGet c.map k2) ∧
    (c.get key now).2.map.map Prod.fst = c.map.map Prod.fst ∧
    (c.get key now).2.max_size = c.max_size ∧
    (c.get key now).2.default_ttl = c.default_ttl := by
  have hget : c.get key now
      = (some e.value,
         { c with map := mapInsert c.map key (e.touch (tick now)) }) := by
    simp [LRUTTLCache.get, hsome, hlive]
  rw [hget]
  have hS : (mapGet c.map key).isSome := by
    rw [hsome]
    rfl
  refine ⟨rfl, ?_, ?_, ?_, rfl, rfl⟩
  · show mapGet (mapInsert c.map key (e.touch (tick now))) key = _
    rw [mapGet_insert_self]
    rfl
  · intro k2 hk2
    exact mapGet_insert_ne c.map key k2 _ hk2
  · exact keys_insert_present c.map key _ hS

end SarkCache

namespace SarkCache

open LRUTTLCache

/-- C5: `cleanup_expired` removes exactly the entries whose expiration
instant has passed at call time, returns the number removed, and leaves
every entry with a future expiration unchanged (same value, expiration
and recency counter). -/
theorem C5_cleanup_expired_exact (c : LRUTTLCache) (now : Nat)
    (hN : (c.map.map Prod.fst).Nodup) :
    (c.cleanup_expired now).1
        = (c.map.filter (fun p => p.2.is_expired now)).length ∧
    (c.cleanup_expired now).2.map
        = c.map.filter (fun p => !(p.2.is_expired now)) ∧
    (∀ p ∈ c.map, p.2.is_expired now = false →
        mapGet (c.cleanup_expired now).2.map p.1 = some p.2) ∧
    (∀ p ∈ c.map, p.2.is_expired now = true →
        mapGet (c.cleanup_expired now).2.map p.1 = none) ∧
    (c.cleanup_expired now).2.max_size = c.max_size ∧
    (c.cleanup_expired now).2.default_ttl = c.default_ttl := by
  rcases cleanup_expired_spec c now hN with ⟨h1, h2, h3, h4⟩
  refine ⟨h1, h2, ?_, ?_, h3, h4⟩
  · intro p hp hlive
    rw [h2]
    have hNf : ((c.map.filter
        (fun p => !(p.2.is_expired now))).map Prod.fst).Nodup :=
      List.Nodup.sublist (List.Sublist.map _ (List.filter_sublist c.map)) hN
    have hpf : p ∈ c.map.filter (fun p => !(p.2.is_expired now)) :=
      List.mem_filter.mpr ⟨hp, by simp [hlive]⟩
    exact mapGet_of_mem_nodup _ hNf p hpf
  · intro p hp hexp
    rw [h2, mapGet_eq_none_iff]
    intro q hq he
    have hqm := (List.mem_filter.mp hq).1
    have hqlive := (List.mem_filter.mp hq).2
    have hqp : q = p := nodup_keys_inj c.map hN q p hqm hp he
    rw [hqp, hexp] at hqlive
    exact Bool.noConfusion hqlive

/-- C2: a `set` that finds the store at or above `max_size` with a fresh
key first runs the expired sweep; the sweep having removed zero entries
(and the store hence still at capacity), it performs LRU eviction, which
removes exactly one entry — the first entry in iteration order whose
recency counter equals the minimum across the whole store — and then
inserts the new entry. -/
theorem C2_set_evicts_first_min (c : LRUTTLCache) (key value : String)
    (ttl : Option Nat) (now : Nat)
    (hN : (c.map.map Prod.fst).Nodup)
    (hW : ∀ p ∈ c.map, p.2.last_accessed < u64MAX)
    (hpos : 0 < c.max_size)
    (hfull : c.map.length ≥ c.max_size)
    (habs : mapGet c.map key = none)
    (hswept : (c.cleanup_expired now).1 = 0) :
    ∃ mu q, minC c.map = some mu ∧
      (∀ p ∈ c.map, mu ≤ p.2.last_accessed) ∧
      c.map.find? (fun p => p.2.last_accessed == mu) = some q ∧
      q.2.last_accessed = mu ∧ q ∈ c.map ∧
      c.set key value ttl now
        = (Except.ok (),
           { c with
               map := mapInsert (mapRemove c.map q.1) key
                 (CacheEntry.new value
                   (now + (ttl.map secsToNanos).getD c.default_ttl)
                   (tick now)) }) ∧
      (mapRemove c.map q.1).length + 1 = c.map.length := by
  have hne : c.map ≠ [] := by
    intro h0
    rw [h0] at hfull
    simp only [List.length_nil] at hfull
    omega
  rcases evict_lru_spec c hW hne with ⟨mu, q, hmc, hfind, hq2, hqm, hev⟩
  refine ⟨mu, q, hmc, minC_le c.map mu hmc, hfind, hq2, hqm, ?_, ?_⟩
  · rw [set_at_capacity c key value ttl now hfull habs hswept, hev]
  · exact mapRemove_length c.map q.1 hN q hqm rfl

/-- C3: `set` fails with `CapacityExceeded` exactly when the eviction scan
finds no entry to evict — in the sequential model, exactly when the store
is empty and `max_size = 0` — and in that case the state is unchanged, so
the new value is not inserted. -/
theorem C3_capacity_error (c : LRUTTLCache) (key value : String)
    (ttl : Option Nat) (now : Nat)
    (hW : ∀ p ∈ c.map, p.2.last_accessed < u64MAX) :
    ((c.set key value ttl now).1
        = Except.error CacheError.CapacityExceeded
      ↔ (c.map = [] ∧ c.max_size = 0)) ∧
    ((c.set key value ttl now).1
        = Except.error CacheError.CapacityExceeded →
      (c.set key value ttl now).2 = c) := by
  by_cases h1 : c.map.length ≥ c.max_size ∧ mapGet c.map key = none
  · by_cases hsw : (c.cleanup_expired now).1 = 0 ∧
        (c.cleanup_expired now).2.map.length ≥ (c.cleanup_expired now).2.max_size
    · have hcap := set_at_capacity c key value ttl now h1.1 h1.2 hsw.1
      rcases hev : c.evict_lru with e | c2
      · have hmap : c.map = [] := (evict_lru_error_iff c hW).mp ⟨e, hev⟩
        have hmax : c.max_size = 0 := by
          have hh := h1.1
          rw [hmap] at hh
          simp only [List.length_nil] at hh
          omega
        have hev2 : c.evict_lru = Except.error CacheError.CapacityExceeded := by
          unfold LRUTTLCache.evict_lru
          rw [hmap]
          rfl
        have heCE : e = CacheError.CapacityExceeded := by
          rw [hev] at hev2
          exact Except.error.inj hev2
        subst heCE
        rw [hcap, hev]
        refine ⟨⟨fun _ => ⟨hmap, hmax⟩, fun _ => rfl⟩, fun _ => rfl⟩
      · rw [hcap, hev]
        constructor
        · constructor
          · intro habs2
            exact absurd habs2 (by simp)
          · intro hcond
            exfalso
            have hev2 : c.evict_lru = Except.error CacheError.CapacityExceeded := by
              unfold LRUTTLCache.evict_lru
              rw [hcond.1]
              rfl
            rw [hev] at hev2
            exact Except.noConfusion hev2
        · intro habs2
          exact absurd habs2 (by simp)
    · have hnoerr : (c.set key value ttl now).1 = Except.ok () := by
        simp only [LRUTTLCache.set]
        rw [if_pos h1, if_neg hsw]
      constructor
      · constructor
        · intro habs2
          rw [hnoerr] at habs2
          exact Except.noConfusion habs2
        · intro hcond
          exfalso
          apply hsw
          have hzero : (c.cleanup_expired now).1 = 0 := by
            rw [cleanup_expired_eq, hcond.1]
            rfl
          have hcc := (cleanup_zero c now hzero).1
          refine ⟨hzero, ?_⟩
          rw [hcc]
          exact h1.1
      · intro habs2
        rw [hnoerr] at habs2
        exact Except.noConfusion habs2
  · have hskip := set_skip_eviction c key value ttl now h1
    rw [hskip]
    constructor
    · constructor
      · intro habs2
        exact absurd habs2 (by simp)
      · intro hcond
        exfalso
        apply h1
        constructor
        · rw [hcond.1, hcond.2]
          exact Nat.le_refl 0
        · rw [hcond.1]
          rfl
    · intro habs2
      exact absurd habs2 (by simp)

/-- C9: after a successful `set(key, value, Some 0)` the stored entry's
expiration instant equals the insertion instant, so any `get` at a time
at or after insertion finds it expired, returns nothing, and removes the
entry from the store. -/
theorem C9_zero_ttl (c : LRUTTLCache) (key value : String) (now now2 : Nat)
    (hok : (c.set key value (some 0) now).1 = Except.ok ())
    (hle : now ≤ now2) :
    ∃ e, mapGet (c.set key value (some 0) now).2.map key = some e ∧
      e.value = value ∧ e.expires_at = now ∧
      ((c.set key value (some 0) now).2.get key now2).1 = none ∧
      mapGet ((c.set key value (some 0) now).2.get key now2).2.map key
        = none := by
  rcases set_ok_map_shape c key value (some 0) now hok with ⟨m0, hmap⟩
  have hzero : now + ((some 0).map secsToNanos).getD c.default_ttl = now := by
    simp [secsToNanos]
  rw [hzero] at hmap
  have hget0 : mapGet (c.set key value (some 0) now).2.map key
      = some (CacheEntry.new value now (tick now)) := by
    rw [hmap]
    exact mapGet_insert_self m0 key _
  have hexp : (CacheEntry.new value now (tick now)).is_expired now2 = true := by
    simp [CacheEntry.is_expired, CacheEntry.new]
    omega
  have hgetc : (c.set key value (some 0) now).2.get key now2
      = (none,
         { (c.set key value (some 0) now).2 with
             map := mapRemove (c.set key value (some 0) now).2.map key }) := by
    simp [LRUTTLCache.get, hget0, hexp]
  refine ⟨CacheEntry.new value now (tick now), hget0, rfl, rfl, ?_, ?_⟩
  · rw [hgetc]
  · rw [hgetc]
    exact mapGet_remove_self _ key

end SarkCache

namespace SarkCache

/-- Two-entry full cache (capacity 2), nothing expired at small times;
entry "b" has the smaller recency counter. -/
def demoCache : LRUTTLCache :=
  { map := [("a", { value := "x", expires_at := 100, last_accessed := 5 }),
            ("b", { value := "y", expires_at := 100, last_accessed := 3 })],
    max_size := 2, default_ttl := secsToNanos 300 }

/-- Two-entry cache where "a" expires at 5 and "b" at 10. -/
def sweepCache : LRUTTLCache :=
  { map := [("a", { value := "x", expires_at := 5, last_accessed := 0 }),
            ("b", { value := "y", expires_at := 10, last_accessed := 1 })],
    max_size := 10, default_ttl := secsToNanos 1 }

/-- The empty cache with `max_size = 0`. -/
def emptyZeroCache : LRUTTLCache :=
  { map := [], max_size := 0, default_ttl := secsToNanos 300 }

/-- Witness for C2 at a concrete full cache. -/
theorem C2_witness :
    ((demoCache.map.map Prod.fst).Nodup ∧
     (∀ p ∈ demoCache.map, p.2.last_accessed < u64MAX) ∧
     0 < demoCache.max_size ∧
     demoCache.map.length ≥ demoCache.max_size ∧
     mapGet demoCache.map "c" = none ∧
     (demoCache.cleanup_expired 0).1 = 0) ∧
    (∃ mu q, minC demoCache.map = some mu ∧
      (∀ p ∈ demoCache.map, mu ≤ p.2.last_accessed) ∧
      demoCache.map.find? (fun p => p.2.last_accessed == mu) = some q ∧
      q.2.last_accessed = mu ∧ q ∈ demoCache.map ∧
      demoCache.set "c" "v" none 0
        = (Except.ok (),
           { demoCache with
               map := mapInsert (mapRemove demoCache.map q.1) "c"
                 (CacheEntry.new "v"
                   (0 + ((none : Option Nat).map secsToNanos).getD
                       demoCache.default_ttl)
                   (tick 0)) }) ∧
      (mapRemove demoCache.map q.1).length + 1 = demoCache.map.length) :=
  ⟨⟨by decide, by decide, by decide, by decide, by decide, by decide⟩,
   C2_set_evicts_first_min demoCache "c" "v" none 0 (by decide) (by decide)
     (by decide) (by decide) (by decide) (by decide)⟩

/-- Witness for C3 at the empty cache with `max_size = 0`. -/
theorem C3_witness :
    (∀ p ∈ emptyZeroCache.map, p.2.last_accessed < u64MAX) ∧
    (((emptyZeroCache.set "a" "b" none 0).1
        = Except.error CacheError.CapacityExceeded
      ↔ (emptyZeroCache.map = [] ∧ emptyZeroCache.max_size = 0)) ∧
     ((emptyZeroCache.set "a" "b" none 0).1
        = Except.error CacheError.CapacityExceeded →
      (emptyZeroCache.set "a" "b" none 0).2 = emptyZeroCache)) :=
  ⟨by decide, C3_capacity_error emptyZeroCache "a" "b" none 0 (by decide)⟩

/-- Witness for C5 at a concrete cache with one expired entry. -/
theorem C5_witness :
    (sweepCache.map.map Prod.fst).Nodup ∧
    ((sweepCache.cleanup_expired 6).1
        = (sweepCache.map.filter (fun p => p.2.is_expired 6)).length ∧
    (sweepCache.cleanup_expired 6).2.map
        = sweepCache.map.filter (fun p => !(p.2.is_expired 6)) ∧
    (∀ p ∈ sweepCache.map, p.2.is_expired 6 = false →
        mapGet (sweepCache.cleanup_expired 6).2.map p.1 = some p.2) ∧
    (∀ p ∈ sweepCache.map, p.2.is_expired 6 = true →
        mapGet (sweepCache.cleanup_expired 6).2.map p.1 = none) ∧
    (sweepCache.cleanup_expired 6).2.max_size = sweepCache.max_size ∧
    (sweepCache.cleanup_expired 6).2.default_ttl = sweepCache.default_ttl) :=
  ⟨by decide, C5_cleanup_expired_exact sweepCache 6 (by decide)⟩

/-- The entry stored under "a" in `sweepCache`. -/
def entryA : CacheEntry := { value := "x", expires_at := 5, last_accessed := 0 }

/-- The entry stored under "b" in `sweepCache`. -/
def entryB : CacheEntry := { value := "y", expires_at := 10, last_accessed := 1 }

/-- Witness for C6: getting the expired "a" at time 6 removes it. -/
theorem C6_witness :
    (mapGet sweepCache.map "a" = some entryA ∧
     entryA.is_expired 6 = true) ∧
    ((sweepCache.get "a" 6).1 = none ∧
     (sweepCache.get "a" 6).2.map = mapRemove sweepCache.map "a" ∧
     mapGet (sweepCache.get "a" 6).2.map "a" = none ∧
     ∀ now2, (sweepCache.get "a" 6).2.get "a" now2
        = (none, (sweepCache.get "a" 6).2)) :=
  ⟨⟨by decide, by decide⟩,
   C6_get_expired_removes sweepCache "a" 6 entryA (by decide) (by decide)⟩

/-- Witness for C7: overwriting the present key "a" needs no eviction. -/
theorem C7_witness :
    mapGet sweepCache.map "a" = some entryA ∧
    ((sweepCache.set "a" "z" none 0).1 = Except.ok () ∧
     (sweepCache.set "a" "z" none 0).2.map
       = mapInsert sweepCache.map "a" (CacheEntry.new "z"
           (0 + (((none : Option Nat)).map secsToNanos).getD
               sweepCache.default_ttl) (tick 0)) ∧
     (∀ k2, k2 ≠ "a" →
       mapGet (sweepCache.set "a" "z" none 0).2.map k2
         = mapGet sweepCache.map k2) ∧
     (sweepCache.set "a" "z" none 0).2.max_size = sweepCache.max_size ∧
     (sweepCache.set "a" "z" none 0).2.default_ttl
       = sweepCache.default_ttl) :=
  ⟨by decide,
   C7_set_overwrite_frame sweepCache "a" "z" none 0 entryA (by decide)⟩

/-- Witness for C9: a zero-TTL entry set at time 7 is gone at time 9. -/
theorem C9_witness :
    (((LRUTTLCache.new 10 300).set "z" "zv" (some 0) 7).1
        = Except.ok () ∧ 7 ≤ 9) ∧
    (∃ e, mapGet ((LRUTTLCache.new 10 300).set "z" "zv" (some 0) 7).2.map "z"
        = some e ∧
      e.value = "zv" ∧ e.expires_at = 7 ∧
      (((LRUTTLCache.new 10 300).set "z" "zv" (some 0) 7).2.get "z" 9).1
        = none ∧
      mapGet (((LRUTTLCache.new 10 300).set "z" "zv"
          (some 0) 7).2.get "z" 9).2.map "z" = none) :=
  ⟨⟨rfl, by decide⟩,
   C9_zero_ttl (LRUTTLCache.new 10 300) "z" "zv" 7 9 rfl (by decide)⟩

/-- Witness for C10: a live hit on "b" at time 2 only touches its
counter. -/
theorem C10_witness :
    (mapGet sweepCache.map "b" = some entryB ∧
     entryB.is_expired 2 = false) ∧
    ((sweepCache.get "b" 2).1 = some entryB.value ∧
     mapGet (sweepCache.get "b" 2).2.map "b"
       = some { entryB with last_accessed := tick 2 } ∧
     (∀ k2, k2 ≠ "b" →
       mapGet (sweepCache.get "b" 2).2.map k2 = mapGet sweepCache.map k2) ∧
     (sweepCache.get "b" 2).2.map.map Prod.fst
       = sweepCache.map.map Prod.fst ∧
     (sweepCache.get "b" 2).2.max_size = sweepCache.max_size ∧
     (sweepCache.get "b" 2).2.default_ttl = sweepCache.default_ttl) :=
  ⟨⟨by decide, by decide⟩,
   C10_get_hit_frame sweepCache "b" 2 entryB (by decide) (by decide)⟩

end SarkCache

